import Mathlib

/-!
Verification of the vlitz in-process instrumentation agent (`src/agent.js`)
against its natural-language specification.

The agent is a JavaScript program driven by a dynamic-instrumentation
toolkit (DIT).  We shallowly embed the handlers the claims are about:

* JS values carried by records are modelled by `JSVal` (strings, integer
  numbers, `null`, `undefined`); numeric fields in the claims are integers.
* The DIT's memory primitives are modelled as total Lean functions into
  `Option` (`none` models an access violation, i.e. a thrown JS exception),
  collected in the `DIT` structure.  Per the spec's concurrency model,
  memory can become unreadable/unwritable under the agent at any point, so
  each primitive is an oracle rather than a function of an explicit heap.
* Handlers that let exceptions escape are given type `Except String _`.
-/

namespace Vlitz

/-- A JavaScript value as it appears in the record fields the agent builds:
a string, an integer number, `null`, or `undefined`.  (The agent's records
only carry strings, numbers, booleans and nulls; the claims under study
touch strings and numbers.) -/
inductive JSVal where
  | vStr (s : String)
  | vNum (n : Int)
  | vBool (b : Bool)
  | vNull
  | vUndefined
deriving DecidableEq, Repr

/-- JS `String(x)` on the modelled value universe. -/
def jsToString : JSVal → String
  | .vStr s => s
  | .vNum n => toString n
  | .vBool b => if b then "true" else "false"
  | .vNull => "null"
  | .vUndefined => "undefined"

/-- JS `a.includes(b)` on strings: `b` occurs as a contiguous substring of
`a` (the empty string is a substring of everything, as in JS). -/
def jsIncludes (a b : String) : Bool :=
  decide (List.IsInfix b.data a.data)

/-- JS `Number(x)` restricted to the modelled universe; `none` models `NaN`.
`Number` of a boolean is 0/1, of `null` is 0, of `undefined` is `NaN`;
string conversion is modelled for optionally signed decimal digit strings
(the agent's filter values in the claims are of this shape). -/
def jsToNumber : JSVal → Option Int
  | .vNum n => some n
  | .vBool b => some (if b then 1 else 0)
  | .vNull => some 0
  | .vUndefined => none
  | .vStr s =>
      if s.isEmpty then some 0
      else if s.startsWith "-" then ((s.drop 1).toNat?).map (fun n => -(n : Int))
      else (s.toNat?).map (fun n => (n : Int))

/-- JS loose equality `==` on the modelled universe: same-type comparison is
structural; number-vs-string compares after numeric conversion; `null` and
`undefined` are loosely equal to each other and to nothing else; booleans
convert to numbers. -/
def jsLooseEq : JSVal → JSVal → Bool
  | .vStr a, .vStr b => a = b
  | .vNum a, .vNum b => a = b
  | .vBool a, .vBool b => a = b
  | .vNull, .vNull => true
  | .vUndefined, .vUndefined => true
  | .vNull, .vUndefined => true
  | .vUndefined, .vNull => true
  | .vNull, _ => false
  | _, .vNull => false
  | .vUndefined, _ => false
  | _, .vUndefined => false
  | a, b => jsToNumber a = jsToNumber b

/-- Is the value a JS `number`?  (`typeof x === 'number'`.) -/
def jsIsNum : JSVal → Bool
  | .vNum _ => true
  | _ => false

/-- The relational comparison scheme shared by the `<`, `>`, `<=`, `>=`
operators of `filtered`: numeric when both sides are numbers or both parse
as numbers, otherwise lexicographic on the stringified values.
`numCmp`/`strCmp` are the order being instantiated. -/
def jsRelCmp (numCmp : Int → Int → Bool) (strCmp : String → String → Bool)
    (a b : JSVal) : Bool :=
  if jsIsNum a ∧ jsIsNum b then
    match jsToNumber a, jsToNumber b with
    | some x, some y => numCmp x y
    | _, _ => false
  else
    match jsToNumber a, jsToNumber b with
    | some x, some y => numCmp x y
    | _, _ => strCmp (jsToString a) (jsToString b)

/-- The operator table of `filtered` (agent.js lines 13-38).  `none` means
the operator is not recognized (then `evaluate` keeps the element). -/
def filterOp : String → Option (JSVal → JSVal → Bool)
  | "=" => some (fun a b => jsLooseEq a b)
  | "!=" => some (fun a b => !(jsLooseEq a b))
  | "<" => some (jsRelCmp (fun x y => x < y) (fun x y => decide (x < y)))
  | ">" => some (jsRelCmp (fun x y => x > y) (fun x y => decide (x > y)))
  | "<=" => some (jsRelCmp (fun x y => x ≤ y) (fun x y => decide (x ≤ y)))
  | ">=" => some (jsRelCmp (fun x y => x ≥ y) (fun x y => decide (x ≥ y)))
  | ":" => some (fun a b =>
      jsIncludes (jsToString a).toLower (jsToString b).toLower)
  | "!:" => some (fun a b =>
      !(jsIncludes (jsToString a).toLower (jsToString b).toLower))
  | _ => none

/-- One element of the filter expression: the literal separators, a
condition tuple `[key, op, value]`, or anything else (a malformed entry,
which the loop of `filtered` silently skips). -/
inductive FilterItem where
  | fAnd
  | fOr
  | fCond (key op : String) (value : JSVal)
  | fOther
deriving DecidableEq, Repr

/-- `evaluate(item, condition)` of `filtered`: look the operator up and
apply it to `item[key]` and the condition value; unknown operators keep the
element.  `getF` is property access on the element type. -/
def filterEval {α : Type} (getF : α → String → JSVal)
    (x : α) (key op : String) (value : JSVal) : Bool :=
  match filterOp op with
  | some f => f (getF x key) value
  | none => true

/-- Insert into the insertion-ordered JS `Set` model (no-op when present). -/
def setAdd {α : Type} [DecidableEq α] (s : List α) (x : α) : List α :=
  if x ∈ s then s else s ++ [x]

/-- `set.add` over a whole list (the `forEach(r => finalResults.add(r))`). -/
def setAddAll {α : Type} [DecidableEq α] (s : List α) (xs : List α) : List α :=
  xs.foldl setAdd s

/-- The loop state of `filtered`: the flushed result set and the current
AND-block. -/
def filteredStep {α : Type} [DecidableEq α] (getF : α → String → JSVal)
    (arr : List α) : (List α × List α) → FilterItem → (List α × List α)
  | (final, cur), .fAnd => (final, cur)
  | (final, cur), .fOther => (final, cur)
  | (final, cur), .fOr => (setAddAll final cur, arr)
  | (final, cur), .fCond k op v =>
      (final, cur.filter (fun x => filterEval getF x k op v))

/-- `filtered(arr, filter)` (agent.js lines 8-62): an empty/absent filter
returns the input; otherwise tuples narrow the working set, `"or"` flushes
it into a `Set` and restarts from the full input, and the final working set
is flushed too.  Elements are deduplicated by the `Set` (reference
identity in JS; the element type's equality here — instantiated with
reference tokens where aliasing matters). -/
def filtered {α : Type} [DecidableEq α] (getF : α → String → JSVal)
    (arr : List α) (filter : List FilterItem) : List α :=
  if filter = [] then arr
  else
    let fc := filter.foldl (filteredStep getF arr) ([], arr)
    setAddAll fc.1 fc.2

/-! ## Decimal rendering of hook ids

`hook_attach` builds ids as `'hook_' + hookIdCounter`, using JS
number-to-string (decimal).  `decGo` renders a natural in decimal,
structurally on a fuel argument so that concrete traces evaluate. -/

/-- Big-endian decimal digit characters of `n` (fuel-indexed; any
`fuel > n` suffices, see `decGo_parse`). -/
def decGo : Nat → Nat → List Char
  | 0, _ => []
  | fuel + 1, n =>
      if n < 10 then [Nat.digitChar n]
      else decGo fuel (n / 10) ++ [Nat.digitChar (n % 10)]

/-- JS decimal number-to-string for naturals. -/
def decString (n : Nat) : String :=
  String.mk (decGo (n + 1) n)

/-- Hook id string: `'hook_' + counter`. -/
def mkId (n : Nat) : String :=
  "hook_" ++ decString n

/-- Decimal parse, the left inverse used to prove `decString` injective. -/
def parseDec (l : List Char) : Nat :=
  l.foldl (fun a c => a * 10 + (c.toNat - 48)) 0

theorem digitChar_toNat_sub (d : Nat) (h : d < 10) :
    (Nat.digitChar d).toNat - 48 = d := by
  interval_cases d <;> rfl

theorem parseDec_append_digit (l : List Char) (c : Char) :
    parseDec (l ++ [c]) = parseDec l * 10 + (c.toNat - 48) := by
  simp [parseDec, List.foldl_append]

theorem decGo_parse : ∀ fuel n, n < fuel → parseDec (decGo fuel n) = n := by
  intro fuel
  induction fuel with
  | zero => intro n h; omega
  | succ f ih =>
      intro n h
      by_cases h10 : n < 10
      · simp only [decGo, if_pos h10]
        simpa [parseDec] using digitChar_toNat_sub n h10
      · have hdiv : n / 10 < f := by omega
        simp only [decGo, if_neg h10]
        rw [parseDec_append_digit, ih _ hdiv,
          digitChar_toNat_sub (n % 10) (Nat.mod_lt _ (by omega))]
        omega

theorem decString_injective : Function.Injective decString := by
  intro a b h
  have hd : decGo (a + 1) a = decGo (b + 1) b := by
    have := congrArg String.data h
    simpa [decString] using this
  have := congrArg parseDec hd
  rwa [decGo_parse _ _ (Nat.lt_succ_self a),
    decGo_parse _ _ (Nat.lt_succ_self b)] at this

theorem mkId_injective : Function.Injective mkId := by
  intro a b h
  apply decString_injective
  have := congrArg String.data h
  simp only [mkId, String.data_append] at this
  exact String.ext (List.append_cancel_left this)

/-! ## Hook manager (agent.js lines 547-760)

The hook table `activeHooks` is an insertion-ordered map from id to
record, and `hookIdCounter` is the id counter.  `Process.findRangeByAddress`
is modelled by lookup in a list of ranges (the DIT's view of the address
space, a parameter of every operation). -/

/-- A memory protection triple (the `'rwx'` string of the DIT). -/
structure Prot where
  r : Bool
  w : Bool
  x : Bool
deriving DecidableEq, Repr

/-- An address-space range as enumerated by the DIT. -/
structure RangeR where
  base : Nat
  size : Nat
  protection : Prot
deriving DecidableEq, Repr

/-- `Process.findRangeByAddress(a)`: the first enumerated range whose span
contains `a`. -/
def findRangeByAddress (ranges : List RangeR) (a : Nat) : Option RangeR :=
  ranges.find? (fun r => decide (r.base ≤ a) && decide (a < r.base + r.size))

/-- One entry of `activeHooks`: listener liveness, target address,
enabled flag.  (The stored config does not influence id allocation and is
omitted from this component's state; the callback behaviour is modelled
separately below.) -/
structure HookRec where
  listener : Bool
  address : Nat
  enabled : Bool
deriving DecidableEq, Repr

/-- The hook manager's mutable state. -/
structure HookState where
  activeHooks : List (String × HookRec)
  hookIdCounter : Nat
deriving DecidableEq, Repr

/-- Result envelope of `hook_attach`. -/
inductive AttachRes where
  | ok (id : String) (address : Nat)
  | err (msg : String)
deriving DecidableEq, Repr

/-- `hook_attach(address)` (agent.js lines 547-673).  The id is allocated —
and the counter incremented — before the address is validated; a failed
validation therefore still consumes an id.  The interceptor install is
modelled as succeeding on every executable address. -/
def hook_attach (ranges : List RangeR) (st : HookState) (address : Nat) :
    AttachRes × HookState :=
  let id := mkId st.hookIdCounter
  let st1 : HookState := { st with hookIdCounter := st.hookIdCounter + 1 }
  match findRangeByAddress ranges address with
  | none => (.err "Invalid or non-executable address", st1)
  | some r =>
      if r.protection.x then
        (.ok id address,
          { st1 with
            activeHooks := st1.activeHooks ++ [(id, ⟨true, address, true⟩)] })
      else (.err "Invalid or non-executable address", st1)

/-- Map lookup in the insertion-ordered hook table (`activeHooks.get`). -/
def hookLookup (st : HookState) (id : String) : Option HookRec :=
  (st.activeHooks.find? (fun p => p.1 = id)).map Prod.snd

/-- Remove an id from the hook table (`activeHooks.delete`). -/
def hookDelete (st : HookState) (id : String) : HookState :=
  { st with activeHooks := st.activeHooks.filter (fun p => p.1 ≠ id) }

/-- Result envelope of `hook_detach` / `hook_disable`. -/
inductive SimpleRes where
  | ok (message : Option String)
  | err (msg : String)
deriving DecidableEq, Repr

/-- `hook_detach(id)` (lines 675-687): detach the listener and drop the
record; unknown ids fail. -/
def hook_detach (st : HookState) (id : String) : SimpleRes × HookState :=
  match hookLookup st id with
  | some _ => (.ok none, hookDelete st id)
  | none => (.err "Hook not found", st)

/-- `hook_disable(id)` (lines 726-743): detach the listener in place,
keeping the record with `enabled = false` and `listener = null`. -/
def hook_disable (st : HookState) (id : String) : SimpleRes × HookState :=
  match hookLookup st id with
  | none => (.err "Hook not found", st)
  | some rec0 =>
      if rec0.enabled then
        (.ok none,
          { st with
            activeHooks := st.activeHooks.map (fun p =>
              if p.1 = id then (p.1, { p.2 with enabled := false, listener := false })
              else p) })
      else (.ok (some "Already disabled"), st)

/-- Result envelope of `hook_enable`. -/
inductive EnableRes where
  | okNew (newId : String)
  | okAlready
  | err (msg : String)
deriving DecidableEq, Repr

/-- `hook_enable(id)` (lines 704-724): a disabled hook is recreated through
the attach path under a fresh id and the old record is removed. -/
def hook_enable (ranges : List RangeR) (st : HookState) (id : String) :
    EnableRes × HookState :=
  match hookLookup st id with
  | none => (.err "Hook not found", st)
  | some rec0 =>
      if rec0.enabled then (.okAlready, st)
      else
        match hook_attach ranges st rec0.address with
        | (.ok newId _, st1) => (.okNew newId, hookDelete st1 id)
        | (.err m, st1) => (.err m, st1)

/-- `hook_clear_all()` (lines 745-760): detach everything, reset the table
and the id counter. -/
def hook_clear_all (st : HookState) : Nat × HookState :=
  (st.activeHooks.length, { activeHooks := [], hookIdCounter := 0 })

/-- One inbound RPC call of the hook-manager surface. -/
inductive HookOp where
  | attach (address : Nat)
  | detach (id : String)
  | disable (id : String)
  | enable (id : String)
  | clearAll
deriving DecidableEq, Repr

/-- Execute one call, accumulating every id handed out by a successful
attach (directly or as `hook_enable`'s `newId`). -/
def hookStep (ranges : List RangeR) :
    HookState × List String → HookOp → HookState × List String
  | (st, ids), .attach a =>
      match hook_attach ranges st a with
      | (.ok id _, st1) => (st1, ids ++ [id])
      | (.err _, st1) => (st1, ids)
  | (st, ids), .detach id => ((hook_detach st id).2, ids)
  | (st, ids), .disable id => ((hook_disable st id).2, ids)
  | (st, ids), .enable id =>
      match hook_enable ranges st id with
      | (.okNew newId, st1) => (st1, ids ++ [newId])
      | (_, st1) => (st1, ids)
  | (st, ids), .clearAll => ((hook_clear_all st).2, ids)

/-- The empty injection-start state. -/
def initialHookState : HookState := ⟨[], 0⟩

/-- Run a sequence of hook-manager RPC calls from injection start,
collecting all issued hook ids. -/
def runHookTrace (ranges : List RangeR) (ops : List HookOp) :
    HookState × List String :=
  ops.foldl (hookStep ranges) (initialHookState, [])

/-! Invariant for id uniqueness: every issued id is `mkId n` for some `n`
below the current counter, and the issued ids are distinct. -/

/-- All issued ids are `mkId` of counters already consumed, and distinct. -/
def HookInv : HookState × List String → Prop
  | (st, ids) =>
      ids.Nodup ∧ ∀ id ∈ ids, ∃ n, n < st.hookIdCounter ∧ id = mkId n

theorem hook_attach_counter (ranges : List RangeR) (st : HookState) (a : Nat) :
    (hook_attach ranges st a).2.hookIdCounter = st.hookIdCounter + 1 := by
  unfold hook_attach
  cases findRangeByAddress ranges a with
  | none => rfl
  | some r => by_cases hx : r.protection.x <;> simp [hx]

theorem hook_attach_ok_id (ranges : List RangeR) (st : HookState) (a : Nat)
    (id : String) (addr : Nat)
    (h : (hook_attach ranges st a).1 = .ok id addr) :
    id = mkId st.hookIdCounter := by
  unfold hook_attach at h
  cases hfind : findRangeByAddress ranges a with
  | none => simp [hfind] at h
  | some r =>
      by_cases hx : r.protection.x <;> simp [hfind, hx] at h
      exact h.1.symm

theorem hookInv_mono (st st1 : HookState) (ids : List String)
    (hinv : HookInv (st, ids)) (hc : st.hookIdCounter ≤ st1.hookIdCounter) :
    HookInv (st1, ids) := by
  obtain ⟨hnodup, hall⟩ := hinv
  refine ⟨hnodup, fun x hx => ?_⟩
  obtain ⟨n, hn, rfl⟩ := hall _ hx
  exact ⟨n, by omega, rfl⟩

theorem hookInv_extend (st st1 : HookState) (ids : List String) (id : String)
    (hinv : HookInv (st, ids)) (hid : id = mkId st.hookIdCounter)
    (hc : st1.hookIdCounter = st.hookIdCounter + 1) :
    HookInv (st1, ids ++ [id]) := by
  obtain ⟨hnodup, hall⟩ := hinv
  constructor
  · rw [List.nodup_append]
    refine ⟨hnodup, List.nodup_singleton _, ?_⟩
    intro x hx hmem
    rw [List.mem_singleton] at hmem
    subst hmem
    obtain ⟨n, hn, hxn⟩ := hall _ hx
    have : n = st.hookIdCounter := mkId_injective (hxn.symm.trans hid)
    omega
  · intro x hx
    rcases List.mem_append.mp hx with hx | hx
    · obtain ⟨n, hn, rfl⟩ := hall _ hx
      exact ⟨n, by omega, rfl⟩
    · rw [List.mem_singleton] at hx
      subst hx
      exact ⟨st.hookIdCounter, by omega, hid⟩

theorem hookDelete_counter (st : HookState) (id : String) :
    (hookDelete st id).hookIdCounter = st.hookIdCounter := rfl

theorem hookStep_inv (ranges : List RangeR) (s : HookState × List String)
    (op : HookOp) (hop : op ≠ .clearAll) (hinv : HookInv s) :
    HookInv (hookStep ranges s op) := by
  obtain ⟨st, ids⟩ := s
  cases op with
  | attach a =>
      cases hres : hook_attach ranges st a with
      | mk res st1 =>
          have hc : st1.hookIdCounter = st.hookIdCounter + 1 := by
            have := hook_attach_counter ranges st a
            rw [hres] at this; exact this
          cases res with
          | ok id addr =>
              have hid : id = mkId st.hookIdCounter :=
                hook_attach_ok_id ranges st a id addr (by rw [hres])
              have : hookStep ranges (st, ids) (.attach a) = (st1, ids ++ [id]) := by
                simp [hookStep, hres]
              rw [this]
              exact hookInv_extend st st1 ids id hinv hid hc
          | err m =>
              have : hookStep ranges (st, ids) (.attach a) = (st1, ids) := by
                simp [hookStep, hres]
              rw [this]
              exact hookInv_mono st st1 ids hinv (by omega)
  | detach id =>
      have : hookStep ranges (st, ids) (.detach id) = ((hook_detach st id).2, ids) := rfl
      rw [this]
      refine hookInv_mono st _ ids hinv (le_of_eq ?_)
      unfold hook_detach
      cases hookLookup st id <;> rfl
  | disable id =>
      have : hookStep ranges (st, ids) (.disable id) = ((hook_disable st id).2, ids) := rfl
      rw [this]
      refine hookInv_mono st _ ids hinv (le_of_eq ?_)
      unfold hook_disable
      cases hookLookup st id with
      | none => rfl
      | some rec0 => by_cases he : rec0.enabled <;> simp [he]
  | enable id =>
      cases hlook : hookLookup st id with
      | none =>
          have : hookStep ranges (st, ids) (.enable id) = (st, ids) := by
            simp [hookStep, hook_enable, hlook]
          rw [this]; exact hinv
      | some rec0 =>
          by_cases he : rec0.enabled
          · have : hookStep ranges (st, ids) (.enable id) = (st, ids) := by
              simp [hookStep, hook_enable, hlook, he]
            rw [this]; exact hinv
          · cases hres : hook_attach ranges st rec0.address with
            | mk res st1 =>
                have hc : st1.hookIdCounter = st.hookIdCounter + 1 := by
                  have := hook_attach_counter ranges st rec0.address
                  rw [hres] at this; exact this
                cases res with
                | ok newId addr =>
                    have hid : newId = mkId st.hookIdCounter :=
                      hook_attach_ok_id ranges st rec0.address newId addr
                        (by rw [hres])
                    have hstep : hookStep ranges (st, ids) (.enable id)
                        = (hookDelete st1 id, ids ++ [newId]) := by
                      simp [hookStep, hook_enable, hlook, he, hres]
                    rw [hstep]
                    exact hookInv_extend st (hookDelete st1 id) ids newId hinv hid
                      (by rw [hookDelete_counter]; exact hc)
                | err m =>
                    have hstep : hookStep ranges (st, ids) (.enable id)
                        = (st1, ids) := by
                      simp [hookStep, hook_enable, hlook, he, hres]
                    rw [hstep]
                    exact hookInv_mono st st1 ids hinv (by omega)
  | clearAll => exact absurd rfl hop

theorem hookFold_inv (ranges : List RangeR) (ops : List HookOp)
    (s : HookState × List String)
    (hop : ∀ op ∈ ops, op ≠ HookOp.clearAll) (hinv : HookInv s) :
    HookInv (ops.foldl (hookStep ranges) s) := by
  induction ops generalizing s with
  | nil => exact hinv
  | cons o rest ih =>
      exact ih _ (fun op h => hop op (List.mem_cons_of_mem _ h))
        (hookStep_inv ranges s o (hop o (List.mem_cons_self _ _)) hinv)

/-! ## DIT memory primitives and the typed reader handlers
(agent.js lines 108-120)

Each `NativePointer` typed read either yields a value or throws an access
violation; `none` models the throw.  The reader RPC handlers call the
primitive with **no** try/catch, so a throw escapes the handler; the
handler result type is therefore `Except String _`, with `.error` the
escaped exception. -/

/-- `NativePointer.toString()`: `0x`-prefixed hexadecimal. -/
def ptrStr (n : Nat) : String :=
  "0x" ++ String.mk (Nat.toDigits 16 n)

/-- The DIT's typed memory-read oracle.  A `none` result models a read
that throws (unmapped or unreadable memory at call time — per the spec,
ranges may be unmapped under the agent at any moment, so reads are
oracles, not functions of a heap). -/
structure DIT where
  readS8 : Nat → Option Int
  readU8 : Nat → Option Int
  readS16 : Nat → Option Int
  readU16 : Nat → Option Int
  readS32 : Nat → Option Int
  readU32 : Nat → Option Int
  readS64 : Nat → Option Int
  readU64 : Nat → Option Int
  readFloat : Nat → Option Rat
  readDouble : Nat → Option Rat
  readCString : Nat → Nat → Option (Option String)
  readByteArray : Nat → Nat → Option (List Nat)
  readPointer : Nat → Option Nat

/-- The value a reader handler returns on success. -/
inductive RVal where
  | int (i : Int)
  | flt (q : Rat)
  | str (s : String)
  | bytes (bs : List Nat)
  | jsNull
deriving DecidableEq, Repr

/-- Lift a primitive result into the handler result: a successful read is
returned; a throwing read escapes the handler as an exception. -/
def rawRead {α : Type} (f : α → RVal) : Option α → Except String RVal
  | some v => .ok (f v)
  | none => .error "access violation"

def reader_byte (d : DIT) (a : Nat) : Except String RVal :=
  rawRead RVal.int (d.readS8 a)

def reader_ubyte (d : DIT) (a : Nat) : Except String RVal :=
  rawRead RVal.int (d.readU8 a)

def reader_short (d : DIT) (a : Nat) : Except String RVal :=
  rawRead RVal.int (d.readS16 a)

def reader_ushort (d : DIT) (a : Nat) : Except String RVal :=
  rawRead RVal.int (d.readU16 a)

def reader_int (d : DIT) (a : Nat) : Except String RVal :=
  rawRead RVal.int (d.readS32 a)

def reader_uint (d : DIT) (a : Nat) : Except String RVal :=
  rawRead RVal.int (d.readU32 a)

def reader_long (d : DIT) (a : Nat) : Except String RVal :=
  rawRead RVal.int (d.readS64 a)

def reader_ulong (d : DIT) (a : Nat) : Except String RVal :=
  rawRead RVal.int (d.readU64 a)

def reader_float (d : DIT) (a : Nat) : Except String RVal :=
  rawRead RVal.flt (d.readFloat a)

def reader_double (d : DIT) (a : Nat) : Except String RVal :=
  rawRead RVal.flt (d.readDouble a)

/-- `reader_string(a, l = 256)`: `readCString` may itself produce JS
`null`; a throw still escapes. -/
def reader_string (d : DIT) (a : Nat) (l : Nat) : Except String RVal :=
  rawRead (fun s => match s with | some t => RVal.str t | none => RVal.jsNull)
    (d.readCString a l)

def reader_bytes (d : DIT) (a : Nat) (l : Nat) : Except String RVal :=
  rawRead RVal.bytes (d.readByteArray a l)

def reader_pointer (d : DIT) (a : Nat) : Except String RVal :=
  rawRead (fun p => RVal.str (ptrStr p)) (d.readPointer a)

/-- A DIT in which every memory read at every address faults: the memory
is entirely unmapped from the agent's point of view. -/
def faultingDIT : DIT where
  readS8 := fun _ => none
  readU8 := fun _ => none
  readS16 := fun _ => none
  readU16 := fun _ => none
  readS32 := fun _ => none
  readU32 := fun _ => none
  readS64 := fun _ => none
  readU64 := fun _ => none
  readFloat := fun _ => none
  readDouble := fun _ => none
  readCString := fun _ _ => none
  readByteArray := fun _ _ => none
  readPointer := fun _ => none

/-! ## Hook configuration and the interceptor callbacks
(agent.js lines 558-658)

`hook_attach` normalises the raw RPC config object into `hookConfig` and
synthesises `onEnter`/`onLeave` callbacks over the DIT's argument slots.
An argument slot is modelled by what `args[i].toString()` yields (`none`
when the stringification throws).  `modifyArgs` overwrites slots, after
which the slot stringifies to the written address. -/

/-- The raw RPC `config` object: `none` is an absent property
(`undefined`). -/
structure RawHookConfig where
  onEnter : Option Bool
  onLeave : Option Bool
  logArgs : Option Bool
  logRetval : Option Bool
  argCount : Option Int
  modifyArgs : Option (List (Option Nat))
  modifyRetval : Option Nat
  backtrace : Option Bool
deriving DecidableEq, Repr

/-- The normalised `hookConfig`. -/
structure HookConfig where
  onEnter : Bool
  onLeave : Bool
  logArgs : Bool
  logRetval : Bool
  argCount : Int
  modifyArgs : Option (List (Option Nat))
  modifyRetval : Option Nat
  backtrace : Bool
deriving DecidableEq, Repr

/-- `config.onEnter !== false`: anything but an explicit `false` is on. -/
def defaultTrue : Option Bool → Bool
  | some false => false
  | _ => true

/-- `config.x === true`. -/
def defaultFalse : Option Bool → Bool
  | some true => true
  | _ => false

/-- `config.argCount || 4`: JS `||` takes the right operand on every falsy
left operand, so an explicit `0` (and `undefined`) both yield 4. -/
def argCountOr4 : Option Int → Int
  | some n => if n = 0 then 4 else n
  | none => 4

/-- The normalisation at agent.js lines 558-567. -/
def hookConfigOf (c : RawHookConfig) : HookConfig where
  onEnter := defaultTrue c.onEnter
  onLeave := defaultFalse c.onLeave
  logArgs := defaultFalse c.logArgs
  logRetval := defaultFalse c.logRetval
  argCount := argCountOr4 c.argCount
  modifyArgs := c.modifyArgs
  modifyRetval := c.modifyRetval
  backtrace := defaultFalse c.backtrace

/-- The argument slots at one invocation: slot `i` stringifies to
`some s`, or `none` when `args[i].toString()` throws. -/
def Args : Type := Nat → Option String

/-- The arg-sampling loop `for (let i = 0; i < argCount; i++)`: exactly
`argCount` iterations (none for a negative count), each pushing the
stringification or the literal `"(error)"`. -/
def sampleArgs (args : Args) (argCount : Int) : List String :=
  (List.range argCount.toNat).map (fun i => (args i).getD "(error)")

/-- Overwrite slot `i` (the assignment `args[idx] = ptr(mod)`); the slot
then stringifies to the written pointer. -/
def updateSlot (args : Args) (i : Nat) (v : String) : Args :=
  fun j => if j = i then some v else args j

/-- `modifyArgs.forEach((mod, idx) => ...)`: each non-null entry overwrites
its slot with the address value; `i` is the index of the head entry. -/
def applyModifyArgs (args : Args) (i : Nat) : List (Option Nat) → Args
  | [] => args
  | none :: rest => applyModifyArgs args (i + 1) rest
  | some m :: rest => applyModifyArgs (updateSlot args i (ptrStr m)) (i + 1) rest

/-- The per-invocation scratch object stored on `this` by `onEnter`. -/
structure HookCtx where
  args : List String
deriving DecidableEq, Repr

/-- What the entry callback produces: the sent `hook_enter` event's `args`
field (`none` when no event is sent; `some none` when the event carries no
`args`), the scratch context, and the possibly modified argument slots. -/
def onEnterCb (cfg : HookConfig) (args0 : Args) :
    Option (Option (List String)) × HookCtx × Args :=
  let enterEvent :=
    if cfg.onEnter then
      some (if cfg.logArgs then some (sampleArgs args0 cfg.argCount) else none)
    else none
  let args1 :=
    match cfg.modifyArgs with
    | some mods => applyModifyArgs args0 0 mods
    | none => args0
  let ctx : HookCtx :=
    { args := if cfg.logArgs then sampleArgs args1 cfg.argCount else [] }
  (enterEvent, ctx, args1)

/-- The `hook_leave` event payload fields under study. -/
structure LeaveEvent where
  retval : Option String
  args : Option (List String)
deriving DecidableEq, Repr

/-- The exit callback: when `onLeave`, emit the event with `retval` iff
`logRetval` and `args` (from the entry scratch) iff `logArgs`. -/
def onLeaveCb (cfg : HookConfig) (ctx : HookCtx) (retval : String) :
    Option LeaveEvent :=
  if cfg.onLeave then
    some { retval := if cfg.logRetval then some retval else none,
           args := if cfg.logArgs then some ctx.args else none }
  else none

/-! ## Scanner refinement (agent.js lines 892-1088)

`scanResults` is the ordered result set, `scanSnapshots` the snapshot map.
Refinements read live memory through the `DIT` oracle at each prior
result's address and keep only surviving entries.  Numeric values read or
compared are modelled as rationals (JS numbers; 64-bit integers are
modelled numerically). -/

/-- One element of `scanResults`; `currentValue`/`originalValue` are the
fields added by refinements via object spread. -/
structure ScanEntry where
  address : Nat
  size : Nat
  pattern : String
  currentValue : Option Rat
  originalValue : Option Rat
deriving DecidableEq, Repr

/-- One element of `scanSnapshots`. -/
structure SnapRec where
  original : Rat
  current : Rat
deriving DecidableEq, Repr

/-- The scanner's mutable state. -/
structure ScanState where
  scanResults : List ScanEntry
  scanSnapshots : List (Nat × SnapRec)
deriving DecidableEq, Repr

/-- The `{count, results: first 1000}` response. -/
structure ScanResp where
  count : Nat
  results : List ScanEntry
deriving DecidableEq, Repr

/-- JS `parseInt` on the scanner's `value` argument, restricted to
optionally signed decimal digit prefixes; `none` models `NaN`. -/
def jsParseInt (s : String) : Option Int :=
  let neg := s.startsWith "-"
  let t := if neg then s.drop 1 else s
  let ds := t.takeWhile Char.isDigit
  if ds.isEmpty then none
  else some ((if neg then -1 else 1) * (ds.toNat?.getD 0 : Int))

/-- JS `parseFloat`, restricted to optionally signed decimal literals with
an optional fraction; `none` models `NaN`. -/
def jsParseFloat (s : String) : Option Rat :=
  let neg := s.startsWith "-"
  let t := if neg then s.drop 1 else s
  let ipart := t.takeWhile Char.isDigit
  let rest := t.drop ipart.length
  let fpart := if rest.startsWith "." then (rest.drop 1).takeWhile Char.isDigit
    else ""
  if ipart.isEmpty ∧ fpart.isEmpty then none
  else
    let mag : Rat := (ipart.toNat?.getD 0 : Int) +
      (fpart.toNat?.getD 0 : Int) / ((10 : Rat) ^ fpart.length)
    some (if neg then -mag else mag)

/-- The typed live read of `scan_next`'s switch (lines 902-933): `none`
models both an unrecognized type (the `default: continue`) and a throwing
read (the catch) — either way the entry is dropped. -/
def scanNextRead (d : DIT) (ty : String) (a : Nat) : Option Rat :=
  if ty = "int8" ∨ ty = "byte" then (d.readS8 a).map (fun i => (i : Rat))
  else if ty = "int16" ∨ ty = "short" then (d.readS16 a).map (fun i => (i : Rat))
  else if ty = "int32" ∨ ty = "int" then (d.readS32 a).map (fun i => (i : Rat))
  else if ty = "int64" ∨ ty = "long" then (d.readS64 a).map (fun i => (i : Rat))
  else if ty = "float" then d.readFloat a
  else if ty = "double" then d.readDouble a
  else none

/-- The target value of `scan_next`: `parseInt` for the integer types,
`parseFloat` for `float`/`double`. -/
def scanNextTarget (ty : String) (value : String) : Option Rat :=
  if ty = "float" ∨ ty = "double" then jsParseFloat value
  else (jsParseInt value).map (fun i => (i : Rat))

/-- The comparison switch of `scan_next` (lines 935-957).  `none` as a
target models `NaN`: every comparison with it is false except `!==`.
Equality on `float`/`double` is approximate (`|a-b| < 0.0001`); an
unrecognized comparison leaves `match = false`. -/
def scanNextMatch (ty comparison : String) (cv : Rat) (tv : Option Rat) : Bool :=
  let isFloaty := jsIncludes ty "float" || ty = "double"
  match comparison, tv with
  | "eq", some t => if isFloaty then |cv - t| < (1 : Rat) / 10000 else cv = t
  | "eq", none => false
  | "ne", some t => cv ≠ t
  | "ne", none => true
  | "gt", some t => cv > t
  | "lt", some t => cv < t
  | "ge", some t => cv ≥ t
  | "le", some t => cv ≤ t
  | _, _ => false

/-- Whether one prior entry survives `scan_next`, and the refreshed entry
(address and pattern preserved, `currentValue` attached). -/
def scanNextKeep (d : DIT) (ty value comparison : String) (e : ScanEntry) :
    Option ScanEntry :=
  match scanNextRead d ty e.address with
  | none => none
  | some cv =>
      if scanNextMatch ty comparison cv (scanNextTarget ty value) then
        some { e with currentValue := some cv }
      else none

/-- `scan_next(type, value, comparison)` (lines 892-975). -/
def scan_next (d : DIT) (ty value comparison : String) (st : ScanState) :
    ScanResp × ScanState :=
  let newResults := st.scanResults.filterMap (scanNextKeep d ty value comparison)
  (⟨newResults.length, newResults.take 1000⟩, { st with scanResults := newResults })

/-- The typed read shared by `scan_changed`/`scan_unchanged`/`scan_snapshot`
(its switch recognizes `int32`/`int` and `float`, defaulting to a 32-bit
read for every other type). -/
def scanCURead (d : DIT) (ty : String) (a : Nat) : Option Rat :=
  if ty = "float" then d.readFloat a
  else (d.readS32 a).map (fun i => (i : Rat))

/-- Snapshot map lookup (`scanSnapshots.get(result.address)`). -/
def snapLookup (st : ScanState) (a : Nat) : Option SnapRec :=
  (st.scanSnapshots.find? (fun p => p.1 = a)).map Prod.snd

/-- Whether one prior entry survives `scan_changed`: dropped when no
snapshot exists, the read throws, or the value still equals the snapshot
original. -/
def scanChangedKeep (d : DIT) (ty : String) (st : ScanState) (e : ScanEntry) :
    Option ScanEntry :=
  match snapLookup st e.address with
  | none => none
  | some snap =>
      match scanCURead d ty e.address with
      | none => none
      | some cv =>
          if cv ≠ snap.original then
            some { e with originalValue := some snap.original,
                          currentValue := some cv }
          else none

/-- `scan_changed(type)` (lines 977-1017). -/
def scan_changed (d : DIT) (ty : String) (st : ScanState) :
    ScanResp × ScanState :=
  let newResults := st.scanResults.filterMap (scanChangedKeep d ty st)
  (⟨newResults.length, newResults.take 1000⟩, { st with scanResults := newResults })

/-- Whether one prior entry survives `scan_unchanged`. -/
def scanUnchangedKeep (d : DIT) (ty : String) (st : ScanState) (e : ScanEntry) :
    Option ScanEntry :=
  match snapLookup st e.address with
  | none => none
  | some snap =>
      match scanCURead d ty e.address with
      | none => none
      | some cv =>
          if cv = snap.original then some { e with currentValue := some cv }
          else none

/-- `scan_unchanged(type)` (lines 1019-1058). -/
def scan_unchanged (d : DIT) (ty : String) (st : ScanState) :
    ScanResp × ScanState :=
  let newResults := st.scanResults.filterMap (scanUnchangedKeep d ty st)
  (⟨newResults.length, newResults.take 1000⟩, { st with scanResults := newResults })

/-- `scan_snapshot(type)` (lines 1060-1088): clear and refill the snapshot
map with the current typed value at every readable result address. -/
def scan_snapshot (d : DIT) (ty : String) (st : ScanState) :
    Nat × ScanState :=
  let snaps := st.scanResults.filterMap (fun e =>
    (scanCURead d ty e.address).map (fun v => (e.address, SnapRec.mk v v)))
  (snaps.length, { st with scanSnapshots := snaps })

/-! ## Module enumeration: `list_ranges_by_module` (agent.js lines 306-316) -/

/-- A loaded module as enumerated by the DIT. -/
structure ModuleR where
  name : String
  base : Nat
  size : Nat
deriving DecidableEq, Repr

/-- `Process.findModuleByAddress(a)`. -/
def findModuleByAddress (mods : List ModuleR) (a : Nat) : Option ModuleR :=
  mods.find? (fun m => decide (m.base ≤ a) && decide (a < m.base + m.size))

/-- Render a protection triple as the DIT's `'rwx'` string. -/
def protToString (p : Prot) : String :=
  (if p.r then "r" else "-") ++ (if p.w then "w" else "-") ++
    (if p.x then "x" else "-")

/-- The record `list_ranges_by_module` builds per range. -/
structure RangeInfo where
  address : String
  size : Nat
  protection : String
deriving DecidableEq, Repr

/-- Projection of a range to its record. -/
def rangeToInfo (r : RangeR) : RangeInfo :=
  ⟨ptrStr r.base, r.size, protToString r.protection⟩

/-- Property access on `RangeInfo` for the filter engine. -/
def rangeInfoGetF (i : RangeInfo) : String → JSVal
  | "address" => .vStr i.address
  | "size" => .vNum i.size
  | "protection" => .vStr i.protection
  | _ => .vUndefined

/-- `list_ranges_by_module(a, protect, filter)`: look the module up, keep
the enumerated ranges with `m.base >= md.base && m.base + m.size <
md.base + md.size` (note the **strict** upper comparison in the source),
project, and apply the filter expression.  `ranges` is the DIT's
`Process.enumerateRanges(protect)` result. -/
def list_ranges_by_module (mods : List ModuleR) (ranges : List RangeR)
    (a : Nat) (filter : List FilterItem) : List RangeInfo :=
  match findModuleByAddress mods a with
  | none => []
  | some md =>
      filtered rangeInfoGetF
        ((ranges.filter (fun r =>
          decide (md.base ≤ r.base) &&
            decide (r.base + r.size < md.base + md.size))).map rangeToInfo)
        filter

/-- Modelled from the claim's words, for comparison: containment inclusive
on `base` and with `r.base + r.size ≤ md.base + md.size` (a range ending
exactly at the module's end is included). -/
def list_ranges_by_module_claim (mods : List ModuleR) (ranges : List RangeR)
    (a : Nat) (filter : List FilterItem) : List RangeInfo :=
  match findModuleByAddress mods a with
  | none => []
  | some md =>
      filtered rangeInfoGetF
        ((ranges.filter (fun r =>
          decide (md.base ≤ r.base) &&
            decide (r.base + r.size ≤ md.base + md.size))).map rangeToInfo)
        filter

/-! ## Patch engine (agent.js lines 1151-1263)

`patch_bytes` operates on the range enclosing the target address.  The
model is that enclosing range: a byte window `mem` (the range's contents,
based at 0) with one protection.  The DIT primitives are fallible;
`PatchWorld` injects their outcomes:

* `readByteArray` throws unless the window is mapped and readable;
* `writeByteArray` throws unless the window is mapped and writable
  (`writeOk = false` models a write that faults anyway, e.g. the range
  being unmapped under the agent — the spec's stated environment);
* `Memory.protect` **returns a boolean** and does not throw on failure;
  the source ignores that boolean.  `protectElevOk`/`protectRestoreOk`
  are the outcomes of the elevating and the restoring call. -/

/-- Outcomes of the DIT primitives during one `patch_bytes` call. -/
structure PatchWorld where
  readOk : Bool
  protectElevOk : Bool
  writeOk : Bool
  protectRestoreOk : Bool
deriving DecidableEq, Repr

/-- The enclosing range: its byte contents and protection. -/
structure MemState where
  mem : List Nat
  prot : Prot
deriving DecidableEq, Repr

/-- The bytes `[a, a + len)` of the window. -/
def extractBytes (m : List Nat) (a len : Nat) : List Nat :=
  (m.drop a).take len

/-- Overwrite the window starting at `a` (callers establish
`a + bs.length ≤ m.length`). -/
def writeBytes (m : List Nat) (a : Nat) (bs : List Nat) : List Nat :=
  m.take a ++ bs ++ m.drop (a + bs.length)

/-- `readByteArray(len)` at `a`: throws unless in range and readable. -/
def primRead (w : PatchWorld) (s : MemState) (a len : Nat) :
    Option (List Nat) :=
  if w.readOk ∧ a + len ≤ s.mem.length ∧ s.prot.r then
    some (extractBytes s.mem a len)
  else none

/-- `writeByteArray(bs)` at `a`: throws unless in range and writable. -/
def primWrite (w : PatchWorld) (s : MemState) (a : Nat) (bs : List Nat) :
    Option MemState :=
  if w.writeOk ∧ a + bs.length ≤ s.mem.length ∧ s.prot.w then
    some { s with mem := writeBytes s.mem a bs }
  else none

/-- `Memory.protect`: returns whether it succeeded; on success the range's
protection becomes `p`, on failure it is untouched. -/
def primProtect (ok : Bool) (s : MemState) (p : Prot) : Bool × MemState :=
  if ok then (true, { s with prot := p }) else (false, s)

/-- The protection elevation: original `r`, plus `w`, plus original `x`. -/
def elevate (p : Prot) : Prot := ⟨p.r, true, p.x⟩

/-- The result envelope of `patch_bytes`. -/
structure PatchResult where
  success : Bool
  error : Option String
  original : List Nat
  patched : List Nat
deriving DecidableEq, Repr

/-- `patch_bytes(address, bytes)` (lines 1151-1195): stash the original
bytes, elevate the protection when the range is not writable (ignoring the
primitive's boolean result), write, restore the protection when it was
elevated (again ignoring the result), and report.  A thrown primitive is
caught by the surrounding try/catch, which returns a failure envelope with
whatever state mutations already happened left in place. -/
def patch_bytes (w : PatchWorld) (s : MemState) (a : Nat) (bytes : List Nat) :
    PatchResult × MemState :=
  if a < s.mem.length then
    match primRead w s a bytes.length with
    | none => (⟨false, some "access violation", [], []⟩, s)
    | some original =>
        let originalProtection := s.prot
        if originalProtection.w then
          match primWrite w s a bytes with
          | none => (⟨false, some "access violation", [], []⟩, s)
          | some s1 => (⟨true, none, original, bytes⟩, s1)
        else
          let es := primProtect w.protectElevOk s (elevate originalProtection)
          match primWrite w es.2 a bytes with
          | none => (⟨false, some "access violation", [], []⟩, es.2)
          | some s2 =>
              let rs := primProtect w.protectRestoreOk s2 originalProtection
              (⟨true, none, original, bytes⟩, rs.2)
  else (⟨false, some "Address not in valid range", [], []⟩, s)

/-- `restore_bytes(address, original)` (lines 1261-1263): delegate to
`patch_bytes`. -/
def restore_bytes (w : PatchWorld) (s : MemState) (a : Nat)
    (original : List Nat) : PatchResult × MemState :=
  patch_bytes w s a original

/-! Characterization lemmas for `patch_bytes`. -/

theorem primRead_some (w : PatchWorld) (s : MemState) (a len : Nat)
    (o : List Nat) (h : primRead w s a len = some o) :
    w.readOk = true ∧ a + len ≤ s.mem.length ∧ s.prot.r = true ∧
    o = extractBytes s.mem a len := by
  unfold primRead at h
  split_ifs at h with hc
  exact ⟨hc.1, hc.2.1, hc.2.2, (Option.some.inj h).symm⟩

theorem primWrite_some (w : PatchWorld) (s : MemState) (a : Nat)
    (bs : List Nat) (s1 : MemState) (h : primWrite w s a bs = some s1) :
    w.writeOk = true ∧ a + bs.length ≤ s.mem.length ∧ s.prot.w = true ∧
    s1 = { s with mem := writeBytes s.mem a bs } := by
  unfold primWrite at h
  split_ifs at h with hc
  exact ⟨hc.1, hc.2.1, hc.2.2, (Option.some.inj h).symm⟩

theorem primProtect_snd (ok : Bool) (s : MemState) (p : Prot) :
    (primProtect ok s p).2 = if ok then { s with prot := p } else s := by
  unfold primProtect
  split_ifs <;> rfl

theorem patch_bytes_success_conditions (w : PatchWorld) (s : MemState)
    (a : Nat) (b : List Nat) (h : (patch_bytes w s a b).1.success = true) :
    a < s.mem.length ∧ w.readOk = true ∧ a + b.length ≤ s.mem.length ∧
    s.prot.r = true ∧ w.writeOk = true ∧
    (s.prot.w = true ∨ w.protectElevOk = true) := by
  unfold patch_bytes at h
  split at h
  · rename_i hA
    split at h
    · simp at h
    · rename_i original hread
      obtain ⟨hR, hW, hr, -⟩ := primRead_some w s a b.length original hread
      dsimp only at h
      split at h
      · rename_i hpw
        split at h
        · simp at h
        · rename_i s1 hwr
          obtain ⟨hw, -, -, -⟩ := primWrite_some w s a b s1 hwr
          exact ⟨hA, hR, hW, hr, hw, Or.inl hpw⟩
      · rename_i hpw
        split at h
        · simp at h
        · rename_i s2 hwr
          obtain ⟨hw, -, hpw2, -⟩ := primWrite_some w _ a b s2 hwr
          have helev : w.protectElevOk = true := by
            by_contra hne
            rw [primProtect_snd, if_neg (by simpa using hne)] at hpw2
            exact hpw hpw2
          exact ⟨hA, hR, hW, hr, hw, Or.inr helev⟩
  · simp at h

theorem patch_bytes_run (w : PatchWorld) (s : MemState) (a : Nat)
    (b : List Nat) (hA : a < s.mem.length) (hR : w.readOk = true)
    (hW : a + b.length ≤ s.mem.length) (hr : s.prot.r = true)
    (hw : w.writeOk = true)
    (hcase : s.prot.w = true ∨ w.protectElevOk = true) :
    patch_bytes w s a b =
      (⟨true, none, extractBytes s.mem a b.length, b⟩,
       ⟨writeBytes s.mem a b,
         if s.prot.w then s.prot
         else if w.protectRestoreOk then s.prot else elevate s.prot⟩) := by
  by_cases hpw : s.prot.w = true
  · simp [patch_bytes, primRead, primWrite, primProtect, hA, hR, hW, hr, hw, hpw]
  · rcases hcase with hcase | helev
    · exact absurd hcase hpw
    · by_cases hres : w.protectRestoreOk = true <;>
        simp [patch_bytes, primRead, primWrite, primProtect, elevate,
          hA, hR, hW, hr, hw, hpw, helev, hres]

theorem extractBytes_length (m : List Nat) (a len : Nat)
    (h : a + len ≤ m.length) : (extractBytes m a len).length = len := by
  simp only [extractBytes, List.length_take, List.length_drop]
  omega

theorem writeBytes_length (m : List Nat) (a : Nat) (bs : List Nat)
    (h : a + bs.length ≤ m.length) :
    (writeBytes m a bs).length = m.length := by
  simp only [writeBytes, List.length_append, List.length_take,
    List.length_drop]
  omega

theorem writeBytes_extract (m : List Nat) (a : Nat) (bs : List Nat)
    (h : a + bs.length ≤ m.length) :
    writeBytes (writeBytes m a bs) a (extractBytes m a bs.length) = m := by
  have hA : (m.take a).length = a := by
    simp only [List.length_take]; omega
  have hL : (extractBytes m a bs.length).length = bs.length :=
    extractBytes_length m a bs.length h
  unfold writeBytes
  rw [hL, List.append_assoc (m.take a) bs (m.drop (a + bs.length))]
  have htake : (m.take a ++ (bs ++ m.drop (a + bs.length))).take a = m.take a := by
    rw [List.take_append_eq_append_take, hA, Nat.sub_self]
    simp [List.take_take]
  have hdrop : (m.take a ++ (bs ++ m.drop (a + bs.length))).drop (a + bs.length)
      = m.drop (a + bs.length) := by
    rw [List.drop_append_eq_append_drop, hA, Nat.add_sub_cancel_left,
      List.drop_append_eq_append_drop, Nat.sub_self]
    have h1 : (m.take a).drop (a + bs.length) = [] :=
      List.drop_eq_nil_of_le (by rw [hA]; omega)
    rw [h1, List.drop_length, List.drop_zero]
    simp
  rw [htake, hdrop, List.append_assoc]
  unfold extractBytes
  calc m.take a ++ ((m.drop a).take bs.length ++ m.drop (a + bs.length))
      = m.take a ++ ((m.drop a).take bs.length ++ (m.drop a).drop bs.length) := by
        rw [List.drop_drop]
    _ = m.take a ++ m.drop a := by rw [List.take_append_drop]
    _ = m := List.take_append_drop a m

/-! Helper lemmas for the scanner, the filter engine, and argument
sampling. -/

theorem scanNextKeep_address (d : DIT) (ty value comparison : String)
    (e e' : ScanEntry)
    (h : scanNextKeep d ty value comparison e = some e') :
    e'.address = e.address := by
  unfold scanNextKeep at h
  split at h
  · simp at h
  · split_ifs at h
    obtain rfl := Option.some.inj h
    rfl

theorem scanChangedKeep_address (d : DIT) (ty : String) (st : ScanState)
    (e e' : ScanEntry) (h : scanChangedKeep d ty st e = some e') :
    e'.address = e.address := by
  unfold scanChangedKeep at h
  split at h
  · simp at h
  · split at h
    · simp at h
    · split_ifs at h
      obtain rfl := Option.some.inj h
      rfl

theorem scanUnchangedKeep_address (d : DIT) (ty : String) (st : ScanState)
    (e e' : ScanEntry) (h : scanUnchangedKeep d ty st e = some e') :
    e'.address = e.address := by
  unfold scanUnchangedKeep at h
  split at h
  · simp at h
  · split at h
    · simp at h
    · split_ifs at h
      obtain rfl := Option.some.inj h
      rfl

theorem mem_setAdd {α : Type} [DecidableEq α] (s : List α) (y x : α) :
    x ∈ setAdd s y ↔ x ∈ s ∨ x = y := by
  unfold setAdd
  split_ifs with h
  · constructor
    · exact Or.inl
    · rintro (h1 | rfl)
      · exact h1
      · exact h
  · simp

theorem mem_setAddAll {α : Type} [DecidableEq α] (xs : List α) :
    ∀ (s : List α) (x : α), x ∈ setAddAll s xs ↔ x ∈ s ∨ x ∈ xs := by
  induction xs with
  | nil => intro s x; simp [setAddAll]
  | cons y ys ih =>
      intro s x
      have : setAddAll s (y :: ys) = setAddAll (setAdd s y) ys := rfl
      rw [this, ih, mem_setAdd]
      simp [or_assoc, or_comm, or_left_comm]

theorem sampleArgs_length (args : Args) (n : Int) :
    (sampleArgs args n).length = n.toNat := by
  simp [sampleArgs]

theorem sampleArgs_get (args : Args) (n : Int) (i : Nat)
    (h : i < (sampleArgs args n).length) :
    (sampleArgs args n).get ⟨i, h⟩ = (args i).getD "(error)" := by
  simp [sampleArgs]

/-! ## Claim C1 -/

/-- Claim C1 as stated is false: the typed reader handlers call the DIT
read primitive with no try/catch, so on a faulting address the exception
escapes the handler instead of a `null` result.  Concretely, with all
memory unmapped, every one of the 13 reader handlers at address 0 produces
an escaped exception, not `Except.ok RVal.jsNull`. -/
theorem c1_readers_throw_counterexample :
    reader_byte faultingDIT 0 = .error "access violation" ∧
    reader_ubyte faultingDIT 0 = .error "access violation" ∧
    reader_short faultingDIT 0 = .error "access violation" ∧
    reader_ushort faultingDIT 0 = .error "access violation" ∧
    reader_int faultingDIT 0 = .error "access violation" ∧
    reader_uint faultingDIT 0 = .error "access violation" ∧
    reader_long faultingDIT 0 = .error "access violation" ∧
    reader_ulong faultingDIT 0 = .error "access violation" ∧
    reader_float faultingDIT 0 = .error "access violation" ∧
    reader_double faultingDIT 0 = .error "access violation" ∧
    reader_string faultingDIT 0 256 = .error "access violation" ∧
    reader_bytes faultingDIT 0 8 = .error "access violation" ∧
    reader_pointer faultingDIT 0 = .error "access violation" ∧
    reader_byte faultingDIT 0 ≠ .ok RVal.jsNull := by
  refine ⟨rfl, rfl, rfl, rfl, rfl, rfl, rfl, rfl, rfl, rfl, rfl, rfl, rfl, ?_⟩
  exact fun h => Except.noConfusion h

/-- Claim C1 amended: the typed reader handlers do not convert faults to
`null`; on every address where the underlying memory read faults, each
handler lets the exception escape (it is the transport layer outside the
agent, not the handler, that keeps it from crossing to the host). -/
theorem c1_reader_fault_escapes (d : DIT) (a l : Nat) :
    (d.readS8 a = none → reader_byte d a = .error "access violation") ∧
    (d.readU8 a = none → reader_ubyte d a = .error "access violation") ∧
    (d.readS16 a = none → reader_short d a = .error "access violation") ∧
    (d.readU16 a = none → reader_ushort d a = .error "access violation") ∧
    (d.readS32 a = none → reader_int d a = .error "access violation") ∧
    (d.readU32 a = none → reader_uint d a = .error "access violation") ∧
    (d.readS64 a = none → reader_long d a = .error "access violation") ∧
    (d.readU64 a = none → reader_ulong d a = .error "access violation") ∧
    (d.readFloat a = none → reader_float d a = .error "access violation") ∧
    (d.readDouble a = none → reader_double d a = .error "access violation") ∧
    (d.readCString a l = none → reader_string d a l = .error "access violation") ∧
    (d.readByteArray a l = none → reader_bytes d a l = .error "access violation") ∧
    (d.readPointer a = none → reader_pointer d a = .error "access violation") := by
  refine ⟨?_, ?_, ?_, ?_, ?_, ?_, ?_, ?_, ?_, ?_, ?_, ?_, ?_⟩ <;>
    intro h <;>
    simp [reader_byte, reader_ubyte, reader_short, reader_ushort,
      reader_int, reader_uint, reader_long, reader_ulong, reader_float,
      reader_double, reader_string, reader_bytes, reader_pointer,
      rawRead, h]

/-- Witness for C1 amended: with all memory unmapped, `reader_byte` at
address 0 escapes with an exception. -/
theorem c1_reader_fault_escapes_witness :
    reader_byte faultingDIT 0 = .error "access violation" :=
  (c1_reader_fault_escapes faultingDIT 0 256).1 rfl

/-! ## Claim C2 -/

/-- Claim C2 as stated is false: `hook_clear_all` resets `hookIdCounter`
to 0, so after a clear the attach path hands out already-used ids again.
Concretely, over one executable range, the trace
attach; clear_all; attach issues `"hook_0"` twice. -/
theorem c2_id_reuse_counterexample :
    (runHookTrace [⟨0, 16, ⟨true, false, true⟩⟩]
      [.attach 0, .clearAll, .attach 0]).2 = ["hook_0", "hook_0"] ∧
    ¬ (runHookTrace [⟨0, 16, ⟨true, false, true⟩⟩]
      [.attach 0, .clearAll, .attach 0]).2.Nodup := by
  decide

/-- C2 cannot reduce to the invariant alone: a pointwise accessor. -/
theorem HookInv.nodup {s : HookState × List String} (h : HookInv s) :
    s.2.Nodup := by
  obtain ⟨st, ids⟩ := s
  exact h.1

/-- Claim C2 amended: hook ids are unique across any sequence of
hook-manager RPC calls in which `hook_clear_all` does **not** occur; the
counter is monotonic and never recycled until a clear resets it. -/
theorem c2_ids_unique_without_clear (ranges : List RangeR)
    (ops : List HookOp) (h : ∀ op ∈ ops, op ≠ HookOp.clearAll) :
    (runHookTrace ranges ops).2.Nodup :=
  (hookFold_inv ranges ops (initialHookState, []) h
    ⟨List.nodup_nil, fun id hid => absurd hid (List.not_mem_nil id)⟩).nodup

/-- Witness for C2 amended: a concrete clear-free trace with two attaches,
a detach and a re-enable issues pairwise distinct ids. -/
theorem c2_ids_unique_witness :
    (runHookTrace [⟨0, 16, ⟨true, false, true⟩⟩]
      [.attach 0, .attach 4, .disable "hook_1", .enable "hook_1"]).2.Nodup :=
  c2_ids_unique_without_clear [⟨0, 16, ⟨true, false, true⟩⟩]
    [.attach 0, .attach 4, .disable "hook_1", .enable "hook_1"]
    (by decide)

/-! ## Claim C3 -/

/-- Claim C3 as stated is false: `patch_bytes` ignores the boolean result
of `Memory.protect`, so when the restoring protection change fails after a
successful elevation the call still returns success and leaves the range
writable.  Concretely: an `r-x` range, a world where the elevating protect
and the write succeed but the restoring protect fails — the protection
after the call is `rwx`, not the `r-x` observed before. -/
theorem c3_prot_not_restored_counterexample :
    (patch_bytes ⟨true, true, true, false⟩
      ⟨[85, 137, 229], ⟨true, false, true⟩⟩ 0 [144, 144, 144]).1.success = true ∧
    (patch_bytes ⟨true, true, true, false⟩
      ⟨[85, 137, 229], ⟨true, false, true⟩⟩ 0 [144, 144, 144]).2.prot
      = ⟨true, true, true⟩ ∧
    (patch_bytes ⟨true, true, true, false⟩
      ⟨[85, 137, 229], ⟨true, false, true⟩⟩ 0 [144, 144, 144]).2.prot
      ≠ (⟨[85, 137, 229], ⟨true, false, true⟩⟩ : MemState).prot := by
  refine ⟨rfl, rfl, ?_⟩
  decide

/-- Claim C3 amended: on every `patch_bytes` call that returns success and
in which the restoring protection change succeeds, the protection of the
affected range after the call equals the protection observed before it
(paths failing before the elevation also leave the protection untouched;
only a failure of the write or of the restoring protect after a successful
elevation leaves the range elevated). -/
theorem c3_prot_restored_on_success (w : PatchWorld) (s : MemState)
    (a : Nat) (b : List Nat) (hres : w.protectRestoreOk = true)
    (h : (patch_bytes w s a b).1.success = true) :
    (patch_bytes w s a b).2.prot = s.prot := by
  obtain ⟨hA, hR, hW, hr, hw, hcase⟩ :=
    patch_bytes_success_conditions w s a b h
  rw [patch_bytes_run w s a b hA hR hW hr hw hcase]
  by_cases hpw : s.prot.w = true <;> simp [hpw, hres]

/-- Witness for C3 amended: a successful patch over a reliable world on a
read-execute range restores the `r-x` protection. -/
theorem c3_prot_restored_witness :
    (patch_bytes ⟨true, true, true, true⟩
      ⟨[85, 137, 229], ⟨true, false, true⟩⟩ 0 [144]).2.prot
      = (⟨[85, 137, 229], ⟨true, false, true⟩⟩ : MemState).prot :=
  c3_prot_restored_on_success ⟨true, true, true, true⟩
    ⟨[85, 137, 229], ⟨true, false, true⟩⟩ 0 [144] rfl (by decide)

/-! ## Claim C4 -/

/-- Claim C4: for every successful `patch_bytes(a, b)` followed by
`restore_bytes(a, original)` with the returned `original`, the restore
succeeds and the bytes in memory afterwards equal the pre-patch bytes (the
whole window is restored, in every world in which the patch succeeded). -/
theorem c4_patch_restore_roundtrip (w : PatchWorld) (s : MemState)
    (a : Nat) (b : List Nat)
    (h : (patch_bytes w s a b).1.success = true) :
    (restore_bytes w (patch_bytes w s a b).2 a
      (patch_bytes w s a b).1.original).1.success = true ∧
    (restore_bytes w (patch_bytes w s a b).2 a
      (patch_bytes w s a b).1.original).2.mem = s.mem := by
  obtain ⟨hA, hR, hW, hr, hw, hcase⟩ :=
    patch_bytes_success_conditions w s a b h
  have hrun := patch_bytes_run w s a b hA hR hW hr hw hcase
  rw [hrun]
  have hmlen : (writeBytes s.mem a b).length = s.mem.length :=
    writeBytes_length s.mem a b hW
  have holen : (extractBytes s.mem a b.length).length = b.length :=
    extractBytes_length s.mem a b.length hW
  set P : Prot := if s.prot.w = true then s.prot
    else if w.protectRestoreOk = true then s.prot else elevate s.prot with hP
  have hPr : P.r = s.prot.r := by
    rw [hP]; split_ifs <;> rfl
  have hPcase : P.w = true ∨ w.protectElevOk = true := by
    rw [hP]
    split_ifs with h1 h2
    · exact Or.inl h1
    · rcases hcase with hc | hc
      · exact absurd hc h1
      · exact Or.inr hc
    · exact Or.inl rfl
  have hrun2 := patch_bytes_run w ⟨writeBytes s.mem a b, P⟩ a
    (extractBytes s.mem a b.length)
    (by simpa [hmlen] using hA) hR
    (by simp only [holen, hmlen]; exact hW)
    (by simpa using hPr.trans hr) hw hPcase
  unfold restore_bytes
  rw [hrun2]
  exact ⟨rfl, by
    simp only []
    rw [writeBytes_extract s.mem a b hW]⟩

/-- Witness for C4: the round-trip at a concrete `r-x` range over a
reliable world brings the original bytes back. -/
theorem c4_patch_restore_witness :
    (restore_bytes ⟨true, true, true, true⟩
      (patch_bytes ⟨true, true, true, true⟩
        ⟨[85, 137, 229], ⟨true, false, true⟩⟩ 0 [144, 144, 144]).2 0
      (patch_bytes ⟨true, true, true, true⟩
        ⟨[85, 137, 229], ⟨true, false, true⟩⟩ 0 [144, 144, 144]).1.original).2.mem
    = [85, 137, 229] :=
  (c4_patch_restore_roundtrip ⟨true, true, true, true⟩
    ⟨[85, 137, 229], ⟨true, false, true⟩⟩ 0 [144, 144, 144] (by decide)).2

/-! ## Claim C5 -/

/-- Claim C5 as stated is false for `argCount = 0`: the normalisation
`config.argCount || 4` treats the explicit (non-negative) value `0` as
falsy and replaces it by 4, so the emitted array has length 4, not 0. -/
theorem c5_argcount_zero_counterexample :
    (hookConfigOf ⟨none, none, some true, none, some 0, none, none,
      none⟩).argCount = 4 ∧
    (onEnterCb (hookConfigOf ⟨none, none, some true, none, some 0, none,
        none, none⟩) (fun _ => some "0x0")).1
      = some (some ["0x0", "0x0", "0x0", "0x0"]) ∧
    ¬ (["0x0", "0x0", "0x0", "0x0"].length = 0) := by
  exact ⟨rfl, rfl, by decide⟩

/-- Claim C5 amended: with `logArgs` set, every `hook_enter` event carries
an args array of length exactly the *normalised* `argCount` — which equals
the caller's value for every **positive** `argCount` and defaults to 4
when the option is omitted **or zero** (or otherwise falsy); each slot is
the stringification of the argument, with per-slot failures replaced by
the literal `"(error)"`. -/
theorem c5_enter_args_length (cfg : RawHookConfig) (args : Args)
    (hlog : (hookConfigOf cfg).logArgs = true)
    (hon : (hookConfigOf cfg).onEnter = true) :
    ∃ l, (onEnterCb (hookConfigOf cfg) args).1 = some (some l) ∧
      l.length = (hookConfigOf cfg).argCount.toNat ∧
      (∀ i : Nat, ∀ hi : i < l.length,
        l.get ⟨i, hi⟩ = (args i).getD "(error)") ∧
      ((cfg.argCount = none ∨ cfg.argCount = some 0) →
        (hookConfigOf cfg).argCount = 4) ∧
      (∀ n : Int, cfg.argCount = some n → 0 < n →
        (hookConfigOf cfg).argCount = n) := by
  refine ⟨sampleArgs args (hookConfigOf cfg).argCount, ?_, ?_, ?_, ?_, ?_⟩
  · simp [onEnterCb, hlog, hon]
  · exact sampleArgs_length args _
  · exact fun i hi => sampleArgs_get args _ i hi
  · rintro (hc | hc) <;> simp [hookConfigOf, argCountOr4, hc]
  · intro n hn hpos
    simp [hookConfigOf, argCountOr4, hn]
    omega

/-- Witness for C5 amended: with `logArgs` and `argCount = 2`, the event
carries exactly two slots, both `"(error)"` here since every
stringification fails. -/
theorem c5_enter_args_length_witness :
    ∃ l, (onEnterCb (hookConfigOf ⟨none, none, some true, none, some 2,
        none, none, none⟩) (fun _ => none)).1 = some (some l) ∧
      l.length = 2 := by
  obtain ⟨l, h1, h2, -, -, -⟩ := c5_enter_args_length
    ⟨none, none, some true, none, some 2, none, none, none⟩
    (fun _ => none) rfl rfl
  exact ⟨l, h1, by rw [h2]; rfl⟩

/-! ## Claim C6 -/

/-- Claim C6: each refinement step (`scan_next`, `scan_changed`,
`scan_unchanged`) returns a count no larger than the prior result-set
size, and every entry of the new result set carries an address already
present in the prior set (monotone shrinking). -/
theorem c6_refinement_shrinks (d : DIT) (ty value comparison : String)
    (st : ScanState) :
    ((scan_next d ty value comparison st).1.count ≤ st.scanResults.length ∧
      ∀ e ∈ (scan_next d ty value comparison st).2.scanResults,
        e.address ∈ st.scanResults.map ScanEntry.address) ∧
    ((scan_changed d ty st).1.count ≤ st.scanResults.length ∧
      ∀ e ∈ (scan_changed d ty st).2.scanResults,
        e.address ∈ st.scanResults.map ScanEntry.address) ∧
    ((scan_unchanged d ty st).1.count ≤ st.scanResults.length ∧
      ∀ e ∈ (scan_unchanged d ty st).2.scanResults,
        e.address ∈ st.scanResults.map ScanEntry.address) := by
  refine ⟨⟨?_, ?_⟩, ⟨?_, ?_⟩, ⟨?_, ?_⟩⟩
  · exact List.length_filterMap_le _ _
  · intro e he
    obtain ⟨x, hx, hfx⟩ := List.mem_filterMap.mp he
    exact List.mem_map.mpr ⟨x, hx,
      (scanNextKeep_address d ty value comparison x e hfx).symm⟩
  · exact List.length_filterMap_le _ _
  · intro e he
    obtain ⟨x, hx, hfx⟩ := List.mem_filterMap.mp he
    exact List.mem_map.mpr ⟨x, hx,
      (scanChangedKeep_address d ty st x e hfx).symm⟩
  · exact List.length_filterMap_le _ _
  · intro e he
    obtain ⟨x, hx, hfx⟩ := List.mem_filterMap.mp he
    exact List.mem_map.mpr ⟨x, hx,
      (scanUnchangedKeep_address d ty st x e hfx).symm⟩

/-! ## Claim C7 -/

/-- Property access on a JS object modelled as named fields, applied to a
reference token: a missing key reads as `undefined`.  `env` maps each
reference in the input list to its object. -/
def objGetF (env : Nat → List (String × JSVal)) (r : Nat) (k : String) :
    JSVal :=
  (((env r).find? (fun p => p.1 = k)).map Prod.snd).getD .vUndefined

/-- Evaluating `filtered` on a one-condition filter: membership in the
output is membership in the input plus the condition. -/
theorem filtered_single_cond {α : Type} [DecidableEq α]
    (g : α → String → JSVal) (arr : List α) (k op : String) (v : JSVal)
    (x : α) :
    x ∈ filtered g arr [.fCond k op v] ↔
      x ∈ arr ∧ filterEval g x k op v = true := by
  unfold filtered
  rw [if_neg (by simp)]
  dsimp only
  rw [show (([FilterItem.fCond k op v]).foldl (filteredStep g arr) ([], arr))
      = (([] : List α), arr.filter (fun y => filterEval g y k op v)) from rfl]
  rw [mem_setAddAll]
  simp [List.mem_filter]

/-- Claim C7: a single-tuple filter `[[k, ':', v]]` returns exactly the
input elements whose stringified field at `k`, lowercased, contains the
stringified `v`, lowercased, as a substring. -/
theorem c7_contains_filter (env : Nat → List (String × JSVal))
    (arr : List Nat) (k : String) (v : JSVal) (x : Nat) :
    x ∈ filtered (objGetF env) arr [.fCond k ":" v] ↔
      x ∈ arr ∧ List.IsInfix (jsToString v).toLower.data
        (jsToString (objGetF env x k)).toLower.data := by
  rw [filtered_single_cond]
  have hop : filterEval (objGetF env) x k ":" v
      = jsIncludes (jsToString (objGetF env x k)).toLower
          (jsToString v).toLower := rfl
  rw [hop]
  unfold jsIncludes
  rw [decide_eq_true_eq]

/-! ## Claim C8 -/

/-- Claim C8 as stated is false: `hook_attach` increments `hookIdCounter`
**before** validating the address, so a call failing with
`"Invalid or non-executable address"` leaves the table unchanged but
consumes an id; with one module range at `[0, 16)` and an invalid target
100, the failed call moves the counter to 1 and the next successful attach
returns `"hook_1"` where it would have returned `"hook_0"`. -/
theorem c8_failed_attach_counterexample :
    (hook_attach [⟨0, 16, ⟨true, false, true⟩⟩] initialHookState 100).1
      = .err "Invalid or non-executable address" ∧
    (hook_attach [⟨0, 16, ⟨true, false, true⟩⟩] initialHookState
      100).2.activeHooks = [] ∧
    (hook_attach [⟨0, 16, ⟨true, false, true⟩⟩] initialHookState
      100).2.hookIdCounter = 1 ∧
    (hook_attach [⟨0, 16, ⟨true, false, true⟩⟩]
      (hook_attach [⟨0, 16, ⟨true, false, true⟩⟩] initialHookState 100).2
      0).1 = .ok "hook_1" 0 ∧
    (hook_attach [⟨0, 16, ⟨true, false, true⟩⟩] initialHookState 0).1
      = .ok "hook_0" 0 ∧
    ("hook_1" : String) ≠ "hook_0" := by
  refine ⟨rfl, rfl, rfl, rfl, rfl, ?_⟩
  decide

/-- Claim C8 amended: a `hook_attach` call that fails with
`"Invalid or non-executable address"` leaves the hook table unchanged but
increments the id counter by one (the id is allocated before validation),
so the next successful attach returns an id one position later than it
would have without the failed call. -/
theorem c8_failed_attach_state (ranges : List RangeR) (st : HookState)
    (a : Nat)
    (h : (hook_attach ranges st a).1 = .err "Invalid or non-executable address") :
    (hook_attach ranges st a).2.activeHooks = st.activeHooks ∧
    (hook_attach ranges st a).2.hookIdCounter = st.hookIdCounter + 1 := by
  refine ⟨?_, hook_attach_counter ranges st a⟩
  unfold hook_attach at h ⊢
  cases hfind : findRangeByAddress ranges a with
  | none => simp [hfind]
  | some r =>
      by_cases hx : r.protection.x
      · rw [hfind] at h
        simp [hx] at h
      · simp [hfind, hx]

/-- Witness for C8 amended: the concrete failed attach at 100 keeps the
empty table and moves the counter from 0 to 1. -/
theorem c8_failed_attach_state_witness :
    (hook_attach [⟨0, 16, ⟨true, false, true⟩⟩] initialHookState
      100).2.activeHooks = initialHookState.activeHooks ∧
    (hook_attach [⟨0, 16, ⟨true, false, true⟩⟩] initialHookState
      100).2.hookIdCounter = initialHookState.hookIdCounter + 1 :=
  c8_failed_attach_state [⟨0, 16, ⟨true, false, true⟩⟩] initialHookState
    100 rfl

/-! ## Claim C9 -/

/-- Claim C9 as stated is false: the containment test of
`list_ranges_by_module` uses the **strict** comparison
`m.base + m.size < md.base + md.size`, so a range whose end equals the
module's end is excluded.  Concretely: module `[0, 16)`, range `[8, 16)`
— the claim includes it, the code returns the empty list. -/
theorem c9_end_equal_range_counterexample :
    list_ranges_by_module [⟨"m", 0, 16⟩] [⟨8, 8, ⟨true, false, false⟩⟩]
      0 [] = [] ∧
    list_ranges_by_module_claim [⟨"m", 0, 16⟩]
      [⟨8, 8, ⟨true, false, false⟩⟩] 0 []
      = [⟨"0x8", 8, "r--"⟩] ∧
    list_ranges_by_module [⟨"m", 0, 16⟩] [⟨8, 8, ⟨true, false, false⟩⟩]
      0 [] ≠
    list_ranges_by_module_claim [⟨"m", 0, 16⟩]
      [⟨8, 8, ⟨true, false, false⟩⟩] 0 [] := by
  refine ⟨rfl, rfl, ?_⟩
  decide

/-- Claim C9 amended: for an address inside module `md`,
`list_ranges_by_module` (with an empty filter) returns exactly the
enumerated ranges with `md.base ≤ r.base` and
`r.base + r.size < md.base + md.size` — strict on the upper end, so a
range ending exactly at the module's end is **not** included. -/
theorem c9_ranges_by_module (mods : List ModuleR) (ranges : List RangeR)
    (a : Nat) (md : ModuleR) (h : findModuleByAddress mods a = some md) :
    list_ranges_by_module mods ranges a [] =
      (ranges.filter (fun r => decide (md.base ≤ r.base) &&
        decide (r.base + r.size < md.base + md.size))).map rangeToInfo := by
  unfold list_ranges_by_module
  rw [h]
  rfl

/-- Witness for C9 amended: module `[0, 16)` with ranges `[4, 8)` (kept)
and `[8, 16)` (dropped by the strict end comparison). -/
theorem c9_ranges_by_module_witness :
    list_ranges_by_module [⟨"m", 0, 16⟩]
      [⟨4, 4, ⟨true, false, false⟩⟩, ⟨8, 8, ⟨true, false, false⟩⟩] 0 []
      = [⟨"0x4", 4, "r--"⟩] :=
  (c9_ranges_by_module [⟨"m", 0, 16⟩]
    [⟨4, 4, ⟨true, false, false⟩⟩, ⟨8, 8, ⟨true, false, false⟩⟩] 0
    ⟨"m", 0, 16⟩ rfl).trans (by rfl)

/-! ## Claim C10 -/

/-- Claim C10: with both `logArgs` and `modifyArgs` set, the args array of
every `hook_leave` event is sampled **after** the `modifyArgs` overwrites
(it is the scratch copy taken at the end of the entry callback), while the
`hook_enter` event's array is sampled **before** them; and the two can
differ for the same invocation, witnessed by a hook with one overwritten
slot. -/
theorem c10_leave_args_after_modify :
    (∀ (cfg : HookConfig) (args0 : Args) (mods : List (Option Nat))
      (rv : String), cfg.logArgs = true → cfg.modifyArgs = some mods →
      cfg.onEnter = true → cfg.onLeave = true →
      (onEnterCb cfg args0).1
        = some (some (sampleArgs args0 cfg.argCount)) ∧
      onLeaveCb cfg (onEnterCb cfg args0).2.1 rv
        = some ⟨if cfg.logRetval then some rv else none,
            some (sampleArgs (applyModifyArgs args0 0 mods)
              cfg.argCount)⟩) ∧
    ((onEnterCb (hookConfigOf ⟨none, some true, some true, none, some 1,
        some [some 2], none, none⟩) (fun _ => some "0xdead")).1
      = some (some ["0xdead"]) ∧
      onLeaveCb (hookConfigOf ⟨none, some true, some true, none, some 1,
          some [some 2], none, none⟩)
        ((onEnterCb (hookConfigOf ⟨none, some true, some true, none,
          some 1, some [some 2], none, none⟩)
          (fun _ => some "0xdead")).2.1) "0x0"
        = some ⟨none, some ["0x2"]⟩ ∧
      (["0x2"] : List String) ≠ ["0xdead"]) := by
  constructor
  · intro cfg args0 mods rv hlog hmod hon hleave
    constructor
    · simp [onEnterCb, hlog, hon]
    · simp [onEnterCb, onLeaveCb, hlog, hmod, hleave]
  · exact ⟨rfl, rfl, by decide⟩

/-- Witness for C10: a hook with `argCount = 1` and slot 0 overwritten to
address 3 reports the original value on entry and the overwritten value on
exit. -/
theorem c10_leave_args_witness :
    (onEnterCb (hookConfigOf ⟨none, some true, some true, none, some 1,
        some [some 3], none, none⟩) (fun _ => some "0xbeef")).1
      = some (some ["0xbeef"]) ∧
    onLeaveCb (hookConfigOf ⟨none, some true, some true, none, some 1,
        some [some 3], none, none⟩)
      ((onEnterCb (hookConfigOf ⟨none, some true, some true, none, some 1,
        some [some 3], none, none⟩) (fun _ => some "0xbeef")).2.1) "0x1"
      = some ⟨none, some ["0x3"]⟩ := by
  have h := c10_leave_args_after_modify.1
    (hookConfigOf ⟨none, some true, some true, none, some 1,
      some [some 3], none, none⟩)
    (fun _ => some "0xbeef") [some 3] "0x1" rfl rfl rfl rfl
  exact ⟨h.1, h.2⟩

end Vlitz
